import Mathlib

/-!
Shallow embedding of the pdf-to-word conversion server
(src/unnamed/part_002 is the current revision; src/unnamed/part_000 holds two
earlier near-duplicate revisions of the same server).

The text normalizer `cleanText` (part_002 lines 95-107) is a chain of five
JavaScript regex substitutions followed by a trim and an empty-string
fallback.  Each substitution is embedded below as a function on `List Char`,
with the exact global left-to-right, non-overlapping match semantics of
`String.prototype.replace` spelled out in the doc comments.

The HTTP handlers (`/convert`, `/download/:filename`, `/health`, `/`) are
embedded as functions from an explicit request/environment record to a
response value; asynchronous library outcomes (multer validation, pdf-parse,
the output write stream) enter as inputs of the record, matching the
"completion signal or failure signal, exactly once" reading of the stream
events.
-/

/-- The character class matched by the JavaScript regex escape `\s`
(ECMAScript WhiteSpace plus LineTerminator): tab, line feed, vertical tab,
form feed, carriage return, space, NBSP, ogham space mark, the en-quad .. hair
space block U+2000-U+200A, line separator, paragraph separator, narrow
no-break space, medium mathematical space, ideographic space, and BOM. -/
def isJsWS (c : Char) : Bool :=
  c == '\t' || c == '\n' || c == '\u000B' || c == '\u000C' || c == '\r' ||
  c == ' ' || c == '\u00A0' || c == '\u1680' ||
  (decide ('\u2000' ≤ c) && decide (c ≤ '\u200A')) ||
  c == '\u2028' || c == '\u2029' || c == '\u202F' || c == '\u205F' ||
  c == '\u3000' || c == '\uFEFF'

/-- The character class of the regex `[ \t]` (horizontal whitespace) used in
`cleanText`'s run-collapsing substitution. -/
def isHWS (c : Char) : Bool :=
  c == ' ' || c == '\t'

/-- The ECMAScript LineTerminator set: the characters after which a multiline
`^` matches and before which a multiline `$` matches. -/
def isLineTerm (c : Char) : Bool :=
  c == '\n' || c == '\r' || c == '\u2028' || c == '\u2029'

/-- `.replace(/\r\n/g, '\n')`: every non-overlapping occurrence of the
two-character sequence CR LF, scanning left to right, becomes a single LF. -/
def replaceCRLF : List Char → List Char
  | '\r' :: '\n' :: rest => '\n' :: replaceCRLF rest
  | c :: rest => c :: replaceCRLF rest
  | [] => []

/-- `.replace(/\r/g, '\n')`: every remaining CR becomes LF. -/
def crToLf (l : List Char) : List Char :=
  l.map (fun c => if c = '\r' then '\n' else c)

/-- `.replace(/\n{3,}/g, '\n\n')`: by greedy matching, each maximal run of at
least three LFs is one match and is replaced by exactly two LFs; shorter runs
are not matched and pass through unchanged. -/
def collapseNL : List Char → List Char
  | [] => []
  | c :: rest =>
    if c = '\n' then
      (if 3 ≤ (rest.takeWhile (fun d => d == '\n')).length + 1 then ['\n', '\n']
       else '\n' :: rest.takeWhile (fun d => d == '\n')) ++
        collapseNL (rest.dropWhile (fun d => d == '\n'))
    else c :: collapseNL rest
termination_by l => l.length
decreasing_by
  · simpa using Nat.lt_succ_of_le (List.dropWhile_sublist
      (fun d => d == '\n') (l := rest)).length_le
  · simp

/-- `.replace(/[ \t]{2,}/g, ' ')`: each maximal run of at least two
space/tab characters becomes a single space; an isolated space or tab (run of
length one) is not matched and is kept as it is. -/
def collapseHWS : List Char → List Char
  | [] => []
  | c :: rest =>
    if isHWS c then
      (if 2 ≤ (rest.takeWhile isHWS).length + 1 then [' ']
       else [c]) ++ collapseHWS (rest.dropWhile isHWS)
    else c :: collapseHWS rest
termination_by l => l.length
decreasing_by
  · simpa using Nat.lt_succ_of_le (List.dropWhile_sublist
      isHWS (l := rest)).length_le
  · simp

/-- What survives of one maximal whitespace run under
`.replace(/^\s+|\s+$/gm, '')`.  Both alternatives of the regex match only
whitespace, so every match lies inside a maximal whitespace run and each run
can be analysed on its own, scanning from its first position `a`:

* run touching the start of the string: `^` matches at position 0, `\s+`
  greedily eats the whole run — nothing survives;
* run touching the end of the string: `\s+$` from `a` eats the whole run and
  `$` matches at end of input — nothing survives;
* interior run (a non-whitespace character on both sides): `^` cannot match
  at `a` (the previous character is not a line terminator) and, for `\s+$`,
  multiline `$` only matches before a LineTerminator, so greedy backtracking
  stops at the last LineTerminator position `e` inside the run, if any:
  - no LineTerminator in the run: neither alternative matches anywhere in the
    run (interior positions are not after a LineTerminator either) and the
    run survives unchanged;
  - otherwise `[a,e)` is deleted; at `e`, if the original character before
    `e` is itself a LineTerminator then `^\s+` matches at `e` and eats the
    rest of the run (nothing survives), else the character at `e` survives
    and `^\s+` matching right after it eats the remainder of the run, so
    exactly that last LineTerminator survives. -/
def keepRun (isStart isEnd : Bool) (run : List Char) : List Char :=
  if isStart then []
  else if isEnd then []
  else
    match run.reverse.dropWhile (fun c => !(isLineTerm c)) with
    | [] => run
    | c :: rest =>
      match rest with
      | d :: _ => if isLineTerm d then [] else [c]
      | [] => [c]

/-- Driver of `.replace(/^\s+|\s+$/gm, '')`: scan left to right, carrying
the whitespace run accumulated so far (`run`, in order) and whether that run
began at position 0 of the whole string (`isStart`).  A non-whitespace
character (or the end of the input) closes the current maximal whitespace
run, which is then replaced by what `keepRun` keeps of it; non-whitespace
characters pass through. -/
def perLineTrimAux : Bool → List Char → List Char → List Char
  | b, run, [] => keepRun b true run
  | b, run, c :: rest =>
    if isJsWS c then perLineTrimAux b (run ++ [c]) rest
    else keepRun b false run ++ c :: perLineTrimAux false [] rest

/-- `.replace(/^\s+|\s+$/gm, '')` applied to the whole string. -/
def perLineTrim (l : List Char) : List Char :=
  perLineTrimAux true [] l

/-- `String.prototype.trim()`: remove the `\s` characters from both ends. -/
def jsTrim (l : List Char) : List Char :=
  ((l.dropWhile isJsWS).reverse.dropWhile isJsWS).reverse

/-- `cleanText` (src/unnamed/part_002 lines 95-107), modelled on string
inputs: for a string argument the JavaScript guard `!text` is exactly the
empty-string test, and the trailing `|| '...'` returns the fallback exactly
when the trimmed result is the empty string. -/
def cleanText (s : String) : String :=
  if s = "" then "No readable text found in this PDF document."
  else
    let cleaned :=
      jsTrim (perLineTrim (collapseHWS (collapseNL (crToLf (replaceCRLF s.data)))))
    if cleaned = [] then "Document appears to be empty or contains only images."
    else String.mk cleaned

/-- All adjacent pairs of the list satisfy the boolean relation `r`. -/
def adjOK (r : Char → Char → Bool) : List Char → Bool
  | [] => true
  | [_] => true
  | a :: b :: l => r a b && adjOK r (b :: l)

/-- No three consecutive characters all satisfy `p`. -/
def noRun3 (p : Char → Bool) : List Char → Bool
  | a :: b :: c :: l => (!(p a && p b && p c)) && noRun3 p (b :: c :: l)
  | _ => true

/-- Adjacent-pair relation: not both characters are newlines. -/
def noNN (a b : Char) : Bool :=
  !(a == '\n' && b == '\n')

/-- Adjacent-pair relation: not both characters are horizontal whitespace. -/
def noHH (a b : Char) : Bool :=
  !(isHWS a && isHWS b)

/-- Adjacent-pair relation: a line terminator is never next to another
whitespace character (so each maximal whitespace run containing a line
terminator is that single character). -/
def ltSep (a b : Char) : Bool :=
  !((isJsWS a && isLineTerm b) || (isLineTerm a && isJsWS b))

/-- `needle` is a prefix of `haystack` (character lists). -/
def startsWithL : List Char → List Char → Bool
  | [], _ => true
  | _ :: _, [] => false
  | a :: as, b :: bs => a == b && startsWithL as bs

/-- `haystack.includes(needle)` of JavaScript, on character lists. -/
def includesL (needle : List Char) : List Char → Bool
  | [] => startsWithL needle []
  | h :: t => startsWithL needle (h :: t) || includesL needle t

/-- `h.includes(n)` of JavaScript on strings. -/
def strIncludes (h n : String) : Bool :=
  includesL n.data h.data

/-- A JavaScript error value as the `/convert` catch block inspects it: an
optional multer error code and a message. -/
structure JsError where
  code : Option String
  message : String
deriving DecidableEq

/-- The per-file metadata multer exposes (`req.file`). -/
structure FileMeta where
  originalname : String
  mimetype : String
  size : Nat
deriving DecidableEq

/-- The configured multer size ceiling (part_002 line 82): 10 * 1024 * 1024. -/
def maxFileSize : Nat := 10 * 1024 * 1024

/-- The multer middleware as configured in part_002 lines 79-92 under
`.single('pdfFile')`: at most one file (a second file raises a multer limit
error), the `fileFilter` admits exactly the declared MIME type
`application/pdf` (else `Error('Only PDF files are allowed')`), and a file
larger than `fileSize: 10MB` raises `LIMIT_FILE_SIZE`.  Result: the error
handed to the upload callback, and `req.file`. -/
def multerSingle (files : List FileMeta) : Option JsError × Option FileMeta :=
  match files with
  | [] => (none, none)
  | [f] =>
    if f.mimetype = "application/pdf" then
      if f.size ≤ maxFileSize then (none, some f)
      else (some ⟨some "LIMIT_FILE_SIZE", "File too large"⟩, none)
    else (some ⟨none, "Only PDF files are allowed"⟩, none)
  | _ :: _ :: _ => (some ⟨some "LIMIT_UNEXPECTED_FILE", "Unexpected field"⟩, none)

/-- Error body sent by the `/convert` catch block: `error` plus optional
`details`. -/
structure ErrorBody where
  error : String
  details : Option String
deriving DecidableEq

/-- Success body sent from the output stream close handler. -/
structure SuccessBody where
  success : Bool
  message : String
  downloadUrl : String
  originalName : String
deriving DecidableEq

/-- Outcome of one `/convert` request as the client (or the process) sees
it.  `uncaught` is an exception that escapes the request handler: the
`throw` inside the stream `'error'` callback (part_002 lines 213-215) runs on
a later tick, outside the `try`/`catch` of lines 136-250, so no HTTP response
is produced and the process-level `uncaughtException` handler fires. -/
inductive ConvertResp
  | ok (body : SuccessBody)
  | clientError (status : Nat) (body : ErrorBody)
  | unavailable
  | uncaught (message : String)
deriving DecidableEq

/-- Everything observable about one `/convert` request: the response, whether
the `finally` block scheduled deletion of the temp upload, and the text that
went into the document body. -/
structure ConvertOut where
  resp : ConvertResp
  cleanupScheduled : Bool
  docText : Option String
deriving DecidableEq

/-- One `/convert` request with its environment: the shutdown flag, the
submitted files, the outcome of `pdfParse` (extracted text or thrown
message), the outcome of the output write stream (close or error event), the
`NODE_ENV` value, and `Date.now()`. -/
structure ConvertInput where
  shuttingDown : Bool
  files : List FileMeta
  parseResult : Except String String
  writeResult : Except String Unit
  env : String
  now : Nat

/-- The `error`-field string chosen by the catch block (part_002 lines
232-239): `LIMIT_FILE_SIZE` code first, then substring tests on the message,
else the generic text. -/
def catchMessage (e : JsError) : String :=
  if e.code = some "LIMIT_FILE_SIZE" then "File too large. Maximum size is 10MB"
  else if strIncludes e.message "Only PDF files" then "Please select a valid PDF file"
  else if strIncludes e.message "No file uploaded" then "No file was uploaded"
  else "Failed to convert PDF"

/-- The JSON body of the catch block's 400 response (part_002 lines 241-244):
`details` carries the raw message only when `NODE_ENV === 'development'`. -/
def catchBody (env : String) (e : JsError) : ErrorBody :=
  ⟨catchMessage e, if env = "development" then some e.message else none⟩

/-- The Express error-handling middleware of part_002 (lines 289-303): pass
on when headers were already sent, else a fixed 400 for the multer size
limit, else a fixed 500 body; no field of the body depends on the error
message. -/
def errorMiddleware (e : JsError) (headersSent : Bool) : Option (Nat × String) :=
  if headersSent then none
  else if e.code = some "LIMIT_FILE_SIZE" then some (400, "File too large (max 10MB)")
  else some (500, "Internal server error")

/-- Dispatch categories of `catchMessage`: which branch of its cascade an
error falls into. -/
def errCategory (e : JsError) : Nat :=
  if e.code = some "LIMIT_FILE_SIZE" then 0
  else if strIncludes e.message "Only PDF files" then 1
  else if strIncludes e.message "No file uploaded" then 2
  else 3

/-- The text put into the document (part_002 lines 151-164): the cleaned
pdf-parse output, or, when `pdfParse` throws, the placeholder string built
from the failure message. -/
def extractedTextOf (i : ConvertInput) : String :=
  match i.parseResult with
  | .ok t => cleanText t
  | .error m =>
      "Error extracting text from PDF: " ++ m ++
        "\n\nThis may be an image-based PDF or the file may be corrupted."

/-- `converted-${Date.now()}.docx` (part_002 line 146). -/
def outputFileName (i : ConvertInput) : String :=
  "converted-" ++ toString i.now ++ ".docx"

/-- The `/convert` route of part_002 (lines 128-252).  Order of business:
shutdown gate (503); multer; missing-file check; text extraction with the
soft-failure fallback; document generation ending in either the stream close
event (success JSON) or the stream error event, whose callback throws after
the `try` block has already finished, so that exception never reaches the
catch block.  `cleanupScheduled` records whether the `finally` block found a
non-null `tempFilePath`: multer sets `req.file` exactly when it stored a temp
file, and `tempFilePath` is assigned before any later failure point. -/
def convertHandler (i : ConvertInput) : ConvertOut :=
  if i.shuttingDown then ⟨.unavailable, false, none⟩
  else
    match multerSingle i.files with
    | (some e, _) => ⟨.clientError 400 (catchBody i.env e), false, none⟩
    | (none, none) =>
        ⟨.clientError 400 (catchBody i.env ⟨none, "No file uploaded"⟩), false, none⟩
    | (none, some f) =>
        match i.writeResult with
        | .error m =>
            ⟨.uncaught ("Failed to write document: " ++ m), true,
              some (extractedTextOf i)⟩
        | .ok _ =>
            ⟨.ok ⟨true, "PDF converted successfully",
                "/download/" ++ outputFileName i, f.originalname⟩, true,
              some (extractedTextOf i)⟩

/-- The filename guard of `GET /download/:filename` (part_002 line 262):
the regex `^converted-\d+\.docx$` — the literal prefix, one or more ASCII
digits, then the literal `.docx`, nothing else. -/
def filenameOk (s : String) : Bool :=
  let l := s.data
  let rest := l.drop 10
  decide (l.take 10 = "converted-".data) &&
    !(rest.takeWhile Char.isDigit).isEmpty &&
    decide (rest.dropWhile Char.isDigit = ".docx".data)

/-- Response of `GET /download/:filename`. -/
inductive DownloadResp
  | unavailable
  | invalidName
  | notFound
  | streamFile (filename clientName : String)
deriving DecidableEq

/-- The `/download/:filename` route of part_002 (lines 254-286): shutdown
gate (503), filename validation (400 JSON), existence check (404 JSON), then
`res.download` with a fresh `document-${Date.now()}.docx` client name. -/
def downloadHandler (shuttingDown : Bool) (filename : String)
    (fileOnDisk : Bool) (now : Nat) : DownloadResp :=
  if shuttingDown then .unavailable
  else if !filenameOk filename then .invalidName
  else if !fileOnDisk then .notFound
  else .streamFile filename ("document-" ++ toString now ++ ".docx")

/-- A JavaScript call result: normal return or thrown exception. -/
inductive JsResult (α : Type)
  | ok (a : α)
  | thrown (e : String)
deriving DecidableEq

/-- Whether a `JsResult` is a thrown exception. -/
def JsResult.isThrown : JsResult α → Bool
  | .thrown _ => true
  | .ok _ => false

/-- `safeFileCleanup` (part_002 lines 109-118): skip when the path is null
or the file no longer exists; otherwise `unlinkSync` inside `try`/`catch`,
logging failure.  The unlink outcome is an environment input; the function's
own result is what the caller of `safeFileCleanup` observes. -/
def safeFileCleanup (pathNonNull fileOnDisk : Bool)
    (unlinkResult : JsResult Unit) : JsResult String :=
  if pathNonNull && fileOnDisk then
    match unlinkResult with
    | .ok _ => .ok "File cleaned up"
    | .thrown e => .ok ("Cleanup failed: " ++ e)
  else .ok "skipped"

/-- What the `res.download` completion callback does (part_002 lines
274-285): on error, log and send 500 if headers were not sent, and schedule
nothing; on success, schedule `safeFileCleanup` after 120000 ms. -/
structure DownloadCbOut where
  scheduledDeleteMs : Option Nat
  errorResp : Option (Nat × String)
deriving DecidableEq

/-- The `res.download` callback of part_002 lines 274-285. -/
def downloadCallback (err : Option String) (headersSent : Bool) : DownloadCbOut :=
  match err with
  | some _ => ⟨none, if headersSent then none else some (500, "Download failed")⟩
  | none => ⟨some 120000, none⟩

/-- The `/health` route (part_002 lines 44-51): registered before every other
route and containing no `isShuttingDown` check, so the shutdown flag does not
influence it.  Its payload fields come from the clock and process state. -/
def healthHandler (_shuttingDown : Bool) (timestamp : String) (uptime : Nat) :
    Nat × (String × String × Nat) :=
  (200, ("OK", timestamp, uptime))

/-- Response of `GET /`. -/
inductive RootResp
  | unavailable
  | page
deriving DecidableEq

/-- The `GET /` route (part_002 lines 121-126): 503 while shutting down, else
the static page. -/
def rootHandler (shuttingDown : Bool) : RootResp :=
  if shuttingDown then .unavailable else .page

/-! ### Character-class facts -/

theorem isJsWS_of_isHWS {c : Char} (h : isHWS c = true) : isJsWS c = true := by
  simp only [isHWS, Bool.or_eq_true, beq_iff_eq] at h
  rcases h with h | h <;> subst h <;> decide

theorem isJsWS_of_isLineTerm {c : Char} (h : isLineTerm c = true) : isJsWS c = true := by
  simp only [isLineTerm, Bool.or_eq_true, beq_iff_eq] at h
  rcases h with ((h | h) | h) | h <;> subst h <;> decide

theorem isHWS_eq_false_of_isLineTerm {c : Char} (h : isLineTerm c = true) :
    isHWS c = false := by
  simp only [isLineTerm, Bool.or_eq_true, beq_iff_eq] at h
  rcases h with ((h | h) | h) | h <;> subst h <;> decide

theorem isLineTerm_nl : isLineTerm '\n' = true := by decide

theorem isJsWS_nl : isJsWS '\n' = true := by decide

theorem nl_of_hws_false {c : Char} (h : isJsWS c = false) : (c == '\n') = false := by
  cases hc : c == '\n' with
  | false => rfl
  | true =>
    rw [beq_iff_eq] at hc
    subst hc
    exact absurd h (by decide)

/-! ### The adjacent-pair predicate -/

theorem adjOK_nil {r : Char → Char → Bool} : adjOK r [] = true := rfl

theorem adjOK_singleton {r : Char → Char → Bool} {a : Char} : adjOK r [a] = true := rfl

theorem adjOK_cons_cons {r : Char → Char → Bool} {a b : Char} {l : List Char} :
    adjOK r (a :: b :: l) = (r a b && adjOK r (b :: l)) := rfl

theorem adjOK_tail {r : Char → Char → Bool} {a : Char} {l : List Char}
    (h : adjOK r (a :: l) = true) : adjOK r l = true := by
  cases l with
  | nil => rfl
  | cons b t =>
    rw [adjOK_cons_cons, Bool.and_eq_true] at h
    exact h.2

theorem adjOK_cons_of {r : Char → Char → Bool} {a : Char} {l : List Char}
    (h : adjOK r l = true) (hb : ∀ b, l.head? = some b → r a b = true) :
    adjOK r (a :: l) = true := by
  cases l with
  | nil => rfl
  | cons b t =>
    rw [adjOK_cons_cons, Bool.and_eq_true]
    exact ⟨hb b rfl, h⟩

theorem adjOK_head {r : Char → Char → Bool} {a b : Char} {l : List Char}
    (h : adjOK r (a :: l) = true) (hb : l.head? = some b) : r a b = true := by
  cases l with
  | nil => cases hb
  | cons c t =>
    simp only [List.head?_cons, Option.some.injEq] at hb
    subst hb
    rw [adjOK_cons_cons, Bool.and_eq_true] at h
    exact h.1

theorem adjOK_append_of {r : Char → Char → Bool} :
    ∀ {xs ys : List Char}, adjOK r xs = true → adjOK r ys = true →
      (∀ a b, xs.getLast? = some a → ys.head? = some b → r a b = true) →
      adjOK r (xs ++ ys) = true := by
  intro xs
  induction xs with
  | nil => intro ys _ hy _; simpa using hy
  | cons x xs ih =>
    intro ys hx hy hb
    cases xs with
    | nil =>
      simp only [List.nil_append, List.cons_append]
      exact adjOK_cons_of hy (fun b h => hb x b rfl h)
    | cons x' t =>
      rw [List.cons_append, List.cons_append]
      rw [adjOK_cons_cons, Bool.and_eq_true] at hx ⊢
      refine ⟨hx.1, ?_⟩
      rw [← List.cons_append]
      refine ih hx.2 hy ?_
      intro a b ha hbb
      refine hb a b ?_ hbb
      rwa [List.getLast?_cons_cons]

theorem adjOK_of_append_right {r : Char → Char → Bool} :
    ∀ {xs ys : List Char}, adjOK r (xs ++ ys) = true → adjOK r ys = true := by
  intro xs
  induction xs with
  | nil => intro ys h; simpa using h
  | cons x t ih =>
    intro ys h
    rw [List.cons_append] at h
    exact ih (adjOK_tail h)

theorem adjOK_of_append_left {r : Char → Char → Bool} :
    ∀ {xs ys : List Char}, adjOK r (xs ++ ys) = true → adjOK r xs = true := by
  intro xs
  induction xs with
  | nil => intro ys _; rfl
  | cons x t ih =>
    intro ys h
    cases t with
    | nil => rfl
    | cons x' t' =>
      rw [List.cons_append, List.cons_append, adjOK_cons_cons, Bool.and_eq_true] at h
      rw [adjOK_cons_cons, Bool.and_eq_true]
      exact ⟨h.1, ih (by rw [List.cons_append]; exact h.2)⟩

theorem adjOK_mono {r r' : Char → Char → Bool}
    (hrr : ∀ a b, r a b = true → r' a b = true) :
    ∀ {l : List Char}, adjOK r l = true → adjOK r' l = true := by
  intro l
  induction l with
  | nil => intro _; rfl
  | cons a t ih =>
    intro h
    cases t with
    | nil => rfl
    | cons b t' =>
      rw [adjOK_cons_cons, Bool.and_eq_true] at h ⊢
      exact ⟨hrr a b h.1, ih h.2⟩

theorem adjOK_of_all {p : Char → Bool} {r : Char → Char → Bool}
    (hpr : ∀ a b, p a = true → p b = true → r a b = true) :
    ∀ {l : List Char}, (∀ c ∈ l, p c = true) → adjOK r l = true := by
  intro l
  induction l with
  | nil => intro _; rfl
  | cons a t ih =>
    intro h
    cases t with
    | nil => rfl
    | cons b t' =>
      rw [adjOK_cons_cons, Bool.and_eq_true]
      refine ⟨hpr a b (h a (by simp)) (h b (by simp)), ih ?_⟩
      intro c hc
      exact h c (List.mem_cons_of_mem a hc)

theorem noRun3_of_adjOK {p : Char → Bool} :
    ∀ {l : List Char}, adjOK (fun a b => !(p a && p b)) l = true → noRun3 p l = true := by
  intro l
  induction l with
  | nil => intro _; rfl
  | cons a t ih =>
    intro h
    match t with
    | [] => rfl
    | [b] => rfl
    | b :: c :: t' =>
      rw [noRun3, Bool.and_eq_true]
      constructor
      · have hab := adjOK_head h (b := b) rfl
        simp only [Bool.not_eq_eq_eq_not, Bool.not_true, Bool.and_eq_false_iff] at hab ⊢
        exact Or.inl hab
      · exact ih (adjOK_tail h)

/-! ### One-step unfoldings of the run-based substitutions -/

theorem collapseNL_nil : collapseNL [] = [] := by
  rw [collapseNL]

theorem collapseNL_cons (c : Char) (rest : List Char) :
    collapseNL (c :: rest) =
      if c = '\n' then
        (if 3 ≤ (rest.takeWhile (fun d => d == '\n')).length + 1 then ['\n', '\n']
         else '\n' :: rest.takeWhile (fun d => d == '\n')) ++
          collapseNL (rest.dropWhile (fun d => d == '\n'))
      else c :: collapseNL rest := by
  rw [collapseNL]

theorem collapseHWS_nil : collapseHWS [] = [] := by
  rw [collapseHWS]

theorem collapseHWS_cons (c : Char) (rest : List Char) :
    collapseHWS (c :: rest) =
      if isHWS c then
        (if 2 ≤ (rest.takeWhile isHWS).length + 1 then [' ']
         else [c]) ++ collapseHWS (rest.dropWhile isHWS)
      else c :: collapseHWS rest := by
  rw [collapseHWS]

/-! ### Helpers about takeWhile and dropWhile -/

theorem dropWhile_destruct {p : Char → Bool} :
    ∀ {l t : List Char} {c : Char}, l.dropWhile p = c :: t → p c = false ∧ c ∈ l := by
  intro l
  induction l with
  | nil => intro t c h; simp [List.dropWhile] at h
  | cons a l ih =>
    intro t c h
    by_cases hp : p a = true
    · rw [List.dropWhile_cons_of_pos hp] at h
      obtain ⟨h1, h2⟩ := ih h
      exact ⟨h1, List.mem_cons_of_mem a h2⟩
    · rw [List.dropWhile_cons_of_neg hp] at h
      cases h
      exact ⟨by simpa using hp, List.mem_cons_self a l⟩

theorem mem_of_mem_takeWhile {p : Char → Bool} {l : List Char} {c : Char}
    (h : c ∈ l.takeWhile p) : c ∈ l := by
  have := List.takeWhile_append_dropWhile p l
  rw [← this]
  exact List.mem_append_left _ h

/-! ### What keepRun keeps -/

theorem keepRun_start (e : Bool) (run : List Char) : keepRun true e run = [] := by
  simp [keepRun]

theorem keepRun_end (b : Bool) (run : List Char) : keepRun b true run = [] := by
  cases b <;> simp [keepRun]

theorem keepRun_cases (b e : Bool) (run : List Char) :
    keepRun b e run = [] ∨
    (∃ c, keepRun b e run = [c] ∧ c ∈ run ∧ isLineTerm c = true) ∨
    (keepRun b e run = run ∧ ∀ x ∈ run, isLineTerm x = false) := by
  cases b with
  | true => exact Or.inl (keepRun_start e run)
  | false =>
    cases e with
    | true => exact Or.inl (keepRun_end false run)
    | false =>
      rcases hw : run.reverse.dropWhile (fun c => !(isLineTerm c)) with _ | ⟨c, _ | ⟨d, t⟩⟩
      · refine Or.inr (Or.inr ⟨?_, ?_⟩)
        · simp [keepRun, hw]
        · intro x hx
          have hall := List.dropWhile_eq_nil_iff.mp hw
          simpa using hall x (List.mem_reverse.mpr hx)
      · refine Or.inr (Or.inl ⟨c, ?_, ?_, ?_⟩)
        · simp [keepRun, hw]
        · exact List.mem_reverse.mp (dropWhile_destruct hw).2
        · simpa using (dropWhile_destruct hw).1
      · by_cases hd : isLineTerm d = true
        · refine Or.inl ?_
          simp [keepRun, hw, hd]
        · refine Or.inr (Or.inl ⟨c, ?_, ?_, ?_⟩)
          · simp [keepRun, hw, hd]
          · exact List.mem_reverse.mp (dropWhile_destruct hw).2
          · simpa using (dropWhile_destruct hw).1

theorem keepRun_subset {b e : Bool} {run : List Char} {x : Char}
    (hx : x ∈ keepRun b e run) : x ∈ run := by
  rcases keepRun_cases b e run with h | ⟨c, h, hc, _⟩ | ⟨h, _⟩
  · rw [h] at hx; cases hx
  · rw [h] at hx
    simp only [List.mem_singleton] at hx
    subst hx
    exact hc
  · rwa [h] at hx

/-! ### Structure of the per-line-trimmed output -/

theorem isHWS_eq_false_of_not_ws {c : Char} (h : isJsWS c = false) : isHWS c = false := by
  cases hh : isHWS c with
  | false => rfl
  | true => rw [isJsWS_of_isHWS hh] at h; cases h

theorem isLineTerm_eq_false_of_not_ws {c : Char} (h : isJsWS c = false) :
    isLineTerm c = false := by
  cases hh : isLineTerm c with
  | false => rfl
  | true => rw [isJsWS_of_isLineTerm hh] at h; cases h

theorem ltSep_of_right_nonws {a c : Char} (h : isJsWS c = false) : ltSep a c = true := by
  simp [ltSep, h, isLineTerm_eq_false_of_not_ws h]

theorem ltSep_of_left_nonws {a c : Char} (h : isJsWS c = false) : ltSep c a = true := by
  simp [ltSep, h, isLineTerm_eq_false_of_not_ws h]

theorem noHH_of_right_nonhws {a c : Char} (h : isHWS c = false) : noHH a c = true := by
  simp [noHH, h]

theorem noHH_of_left_nonhws {a c : Char} (h : isHWS c = false) : noHH c a = true := by
  simp [noHH, h]

theorem perLineTrimAux_mem :
    ∀ (l : List Char) (b : Bool) (run : List Char) (x : Char),
      x ∈ perLineTrimAux b run l → x ∈ run ∨ x ∈ l := by
  intro l
  induction l with
  | nil =>
    intro b run x hx
    rw [perLineTrimAux] at hx
    exact Or.inl (keepRun_subset hx)
  | cons c rest ih =>
    intro b run x hx
    rw [perLineTrimAux] at hx
    by_cases hc : isJsWS c = true
    · rw [if_pos hc] at hx
      rcases ih b (run ++ [c]) x hx with h | h
      · rcases List.mem_append.mp h with h | h
        · exact Or.inl h
        · simp only [List.mem_singleton] at h
          subst h
          exact Or.inr (List.mem_cons_self x rest)
      · exact Or.inr (List.mem_cons_of_mem c h)
    · rw [if_neg hc] at hx
      rcases List.mem_append.mp hx with h | h
      · exact Or.inl (keepRun_subset h)
      · rcases List.mem_cons.mp h with h | h
        · subst h
          exact Or.inr (List.mem_cons_self x rest)
        · rcases ih false [] x h with h | h
          · cases h
          · exact Or.inr (List.mem_cons_of_mem c h)

theorem perLineTrimAux_ltSep :
    ∀ (l : List Char) (b : Bool) (run : List Char),
      (∀ x ∈ run, isJsWS x = true) →
      adjOK ltSep (perLineTrimAux b run l) = true := by
  intro l
  induction l with
  | nil =>
    intro b run _
    rw [perLineTrimAux, keepRun_end]
    rfl
  | cons c rest ih =>
    intro b run hrun
    rw [perLineTrimAux]
    by_cases hc : isJsWS c = true
    · rw [if_pos hc]
      refine ih b (run ++ [c]) ?_
      intro x hx
      rcases List.mem_append.mp hx with h | h
      · exact hrun x h
      · simp only [List.mem_singleton] at h
        subst h
        exact hc
    · rw [if_neg hc]
      rw [Bool.not_eq_true] at hc
      refine adjOK_append_of ?_ ?_ ?_
      · rcases keepRun_cases b false run with h | ⟨d, h, _, _⟩ | ⟨h, hnolt⟩
        · rw [h]; rfl
        · rw [h]; rfl
        · rw [h]
          refine adjOK_of_all (p := fun x => !(isLineTerm x)) ?_ ?_
          · intro a y ha hy
            simp only [Bool.not_eq_eq_eq_not, Bool.not_true] at ha hy
            simp [ltSep, ha, hy]
          · intro x hx
            simp [hnolt x hx]
      · refine adjOK_cons_of (ih false [] (by intro x hx; cases hx)) ?_
        intro y _
        exact ltSep_of_left_nonws hc
      · intro a y _ hy
        simp only [List.head?_cons, Option.some.injEq] at hy
        subst hy
        exact ltSep_of_right_nonws hc

theorem perLineTrimAux_noHH :
    ∀ (l : List Char) (b : Bool) (run : List Char),
      adjOK noHH (run ++ l) = true →
      adjOK noHH (perLineTrimAux b run l) = true := by
  intro l
  induction l with
  | nil =>
    intro b run _
    rw [perLineTrimAux, keepRun_end]
    rfl
  | cons c rest ih =>
    intro b run h
    rw [perLineTrimAux]
    by_cases hc : isJsWS c = true
    · rw [if_pos hc]
      refine ih b (run ++ [c]) ?_
      rwa [List.append_assoc, List.singleton_append]
    · rw [if_neg hc]
      rw [Bool.not_eq_true] at hc
      have hcr : adjOK noHH (c :: rest) = true := adjOK_of_append_right h
      have hrest : adjOK noHH rest = true := adjOK_tail hcr
      refine adjOK_append_of ?_ ?_ ?_
      · rcases keepRun_cases b false run with hk | ⟨d, hk, _, _⟩ | ⟨hk, _⟩
        · rw [hk]; rfl
        · rw [hk]; rfl
        · rw [hk]
          exact adjOK_of_append_left h
      · refine adjOK_cons_of (ih false [] (by simpa using hrest)) ?_
        intro y _
        exact noHH_of_left_nonhws (isHWS_eq_false_of_not_ws hc)
      · intro a y _ hy
        simp only [List.head?_cons, Option.some.injEq] at hy
        subst hy
        exact noHH_of_right_nonhws (isHWS_eq_false_of_not_ws hc)

/-! ### The newline- and space-run collapsing passes -/

theorem mem_collapseNL :
    ∀ (l : List Char) (x : Char), x ∈ collapseNL l → x = '\n' ∨ x ∈ l := by
  intro l
  induction l using collapseNL.induct with
  | case1 =>
    intro x hx
    rw [collapseNL_nil] at hx
    cases hx
  | case2 rest ih =>
    intro x hx
    rw [collapseNL_cons, if_pos rfl] at hx
    rcases List.mem_append.mp hx with h | h
    · by_cases h3 : 3 ≤ (rest.takeWhile (fun d => d == '\n')).length + 1
      · rw [if_pos h3] at h
        simp only [List.mem_cons, List.not_mem_nil, or_false] at h
        rcases h with h | h <;> exact Or.inl h
      · rw [if_neg h3] at h
        rcases List.mem_cons.mp h with h | h
        · exact Or.inl h
        · have hall := List.all_takeWhile (l := rest) (p := fun d => d == '\n')
          rw [List.all_eq_true] at hall
          have := hall x h
          exact Or.inl (by simpa using this)
    · rcases ih x h with h1 | h1
      · exact Or.inl h1
      · refine Or.inr (List.mem_cons_of_mem _ ?_)
        exact (List.dropWhile_sublist (fun d => d == '\n') (l := rest)).subset h1
  | case3 c rest hc ih =>
    intro x hx
    rw [collapseNL_cons, if_neg hc] at hx
    rcases List.mem_cons.mp hx with h | h
    · subst h
      exact Or.inr (List.mem_cons_self x rest)
    · rcases ih x h with h1 | h1
      · exact Or.inl h1
      · exact Or.inr (List.mem_cons_of_mem c h1)

theorem mem_collapseHWS :
    ∀ (l : List Char) (x : Char), x ∈ collapseHWS l → x = ' ' ∨ x ∈ l := by
  intro l
  induction l using collapseHWS.induct with
  | case1 =>
    intro x hx
    rw [collapseHWS_nil] at hx
    cases hx
  | case2 c rest hc ih =>
    intro x hx
    rw [collapseHWS_cons, if_pos hc] at hx
    rcases List.mem_append.mp hx with h | h
    · by_cases h2 : 2 ≤ (rest.takeWhile isHWS).length + 1
      · rw [if_pos h2] at h
        simp only [List.mem_singleton] at h
        exact Or.inl h
      · rw [if_neg h2] at h
        simp only [List.mem_singleton] at h
        subst h
        exact Or.inr (List.mem_cons_self x rest)
    · rcases ih x h with h1 | h1
      · exact Or.inl h1
      · refine Or.inr (List.mem_cons_of_mem c ?_)
        exact (List.dropWhile_sublist isHWS (l := rest)).subset h1
  | case3 c rest hc ih =>
    intro x hx
    rw [collapseHWS_cons, if_neg hc] at hx
    rcases List.mem_cons.mp hx with h | h
    · subst h
      exact Or.inr (List.mem_cons_self x rest)
    · rcases ih x h with h1 | h1
      · exact Or.inl h1
      · exact Or.inr (List.mem_cons_of_mem c h1)

theorem collapseHWS_noHH : ∀ (l : List Char), adjOK noHH (collapseHWS l) = true := by
  intro l
  induction l using collapseHWS.induct with
  | case1 => rw [collapseHWS_nil]; rfl
  | case2 c rest hc ih =>
    rw [collapseHWS_cons, if_pos hc]
    have hhead : ∀ y, (collapseHWS (rest.dropWhile isHWS)).head? = some y →
        isHWS y = false := by
      intro y hy
      rcases hd : rest.dropWhile isHWS with _ | ⟨e, t⟩
      · rw [hd, collapseHWS_nil] at hy
        cases hy
      · have he : isHWS e = false := (dropWhile_destruct hd).1
        rw [hd, collapseHWS_cons, if_neg (by simp [he])] at hy
        simp only [List.head?_cons, Option.some.injEq] at hy
        subst hy
        exact he
    by_cases h2 : 2 ≤ (rest.takeWhile isHWS).length + 1
    · rw [if_pos h2]
      refine adjOK_append_of adjOK_singleton ih ?_
      intro a y ha hy
      exact noHH_of_right_nonhws (hhead y hy)
    · rw [if_neg h2]
      refine adjOK_append_of adjOK_singleton ih ?_
      intro a y ha hy
      exact noHH_of_right_nonhws (hhead y hy)
  | case3 c rest hc ih =>
    rw [collapseHWS_cons, if_neg hc]
    refine adjOK_cons_of ih ?_
    intro y _
    exact noHH_of_left_nonhws (by simpa using hc)

theorem collapseNL_fix :
    ∀ (l : List Char), adjOK noNN l = true → collapseNL l = l := by
  intro l
  induction l using collapseNL.induct with
  | case1 => intro _; rw [collapseNL_nil]
  | case2 rest ih =>
    intro h
    have hne : ∀ d, rest.head? = some d → (d == '\n') = false := by
      intro d hd
      have h2 := adjOK_head h hd
      cases hdn : d == '\n' with
      | false => rfl
      | true =>
        simp only [noNN, hdn] at h2
        simp at h2
    have htw : rest.takeWhile (fun d => d == '\n') = [] := by
      cases rest with
      | nil => rfl
      | cons d t => exact List.takeWhile_cons_of_neg (by simp [hne d rfl])
    have hdw : rest.dropWhile (fun d => d == '\n') = rest := by
      cases rest with
      | nil => rfl
      | cons d t => exact List.dropWhile_cons_of_neg (by simp [hne d rfl])
    rw [hdw] at ih
    rw [collapseNL_cons, if_pos rfl, htw, hdw]
    simp only [List.length_nil, Nat.zero_add]
    rw [if_neg (by norm_num), ih (adjOK_tail h)]
    rfl
  | case3 c rest hc ih =>
    intro h
    rw [collapseNL_cons, if_neg hc, ih (adjOK_tail h)]

theorem collapseHWS_fix :
    ∀ (l : List Char), adjOK noHH l = true → collapseHWS l = l := by
  intro l
  induction l using collapseHWS.induct with
  | case1 => intro _; rw [collapseHWS_nil]
  | case2 c rest hc ih =>
    intro h
    have hne : ∀ d, rest.head? = some d → isHWS d = false := by
      intro d hd
      have h2 := adjOK_head h hd
      cases hdn : isHWS d with
      | false => rfl
      | true =>
        simp only [noHH, hc, hdn] at h2
        simp at h2
    have htw : rest.takeWhile isHWS = [] := by
      cases rest with
      | nil => rfl
      | cons d t => exact List.takeWhile_cons_of_neg (by simp [hne d rfl])
    have hdw : rest.dropWhile isHWS = rest := by
      cases rest with
      | nil => rfl
      | cons d t => exact List.dropWhile_cons_of_neg (by simp [hne d rfl])
    rw [hdw] at ih
    rw [collapseHWS_cons, if_pos hc, htw, hdw]
    simp only [List.length_nil, Nat.zero_add]
    rw [if_neg (by norm_num), ih (adjOK_tail h)]
    rfl
  | case3 c rest hc ih =>
    intro h
    rw [collapseHWS_cons, if_neg hc, ih (adjOK_tail h)]

/-! ### Carriage-return elimination and the final trim -/

theorem cr_not_mem_crToLf (l : List Char) : '\r' ∉ crToLf l := by
  intro h
  rcases List.mem_map.mp h with ⟨a, _, ha⟩
  by_cases hr : a = '\r'
  · rw [if_pos hr] at ha
    cases ha
  · rw [if_neg hr] at ha
    exact hr ha

theorem replaceCRLF_cons_ne {c : Char} (rest : List Char) (hc : c ≠ '\r') :
    replaceCRLF (c :: rest) = c :: replaceCRLF rest := by
  rw [replaceCRLF.eq_def]
  split
  · rename_i heq
    injection heq with h1 h2
    exact absurd h1 hc
  · rename_i c2 rest2 heq
    injection heq with h1 h2
    subst h1
    subst h2
    rfl
  · rename_i heq
    cases heq

theorem replaceCRLF_fix : ∀ {l : List Char}, '\r' ∉ l → replaceCRLF l = l := by
  intro l
  induction l with
  | nil => intro _; rfl
  | cons c rest ih =>
    intro h
    have hc : c ≠ '\r' := by
      intro e
      exact h (e ▸ List.mem_cons_self c rest)
    rw [replaceCRLF_cons_ne rest hc, ih (fun hm => h (List.mem_cons_of_mem c hm))]

theorem crToLf_fix : ∀ {l : List Char}, '\r' ∉ l → crToLf l = l := by
  intro l
  induction l with
  | nil => intro _; rfl
  | cons a t ih =>
    intro h
    show (if a = '\r' then '\n' else a) :: crToLf t = a :: t
    rw [if_neg (fun e => h (List.mem_cons.mpr (Or.inl e.symm))),
      ih (fun hm => h (List.mem_cons_of_mem a hm))]

theorem getLast?_append_cons (u : List Char) (e : Char) (t : List Char) :
    (u ++ (e :: t)).getLast? = (e :: t).getLast? := by
  rw [List.getLast?_append]
  cases hgl : (e :: t).getLast? with
  | none => simp at hgl
  | some a => rfl

theorem jsTrim_decomp (l : List Char) : ∃ u v, l = u ++ jsTrim l ++ v := by
  refine ⟨l.takeWhile isJsWS,
    ((l.dropWhile isJsWS).reverse.takeWhile isJsWS).reverse, ?_⟩
  unfold jsTrim
  conv_lhs => rw [← List.takeWhile_append_dropWhile isJsWS l]
  rw [List.append_assoc]
  congr 1
  conv_lhs => rw [← List.reverse_reverse (l.dropWhile isJsWS)]
  conv_lhs =>
    rw [← List.takeWhile_append_dropWhile isJsWS (l.dropWhile isJsWS).reverse]
  rw [List.reverse_append]

theorem adjOK_jsTrim {r : Char → Char → Bool} {l : List Char}
    (h : adjOK r l = true) : adjOK r (jsTrim l) = true := by
  obtain ⟨u, v, hl⟩ := jsTrim_decomp l
  rw [hl, List.append_assoc] at h
  exact adjOK_of_append_left (adjOK_of_append_right h)

theorem mem_jsTrim {l : List Char} {x : Char} (h : x ∈ jsTrim l) : x ∈ l := by
  obtain ⟨u, v, hl⟩ := jsTrim_decomp l
  rw [hl, List.mem_append, List.mem_append]
  exact Or.inl (Or.inr h)

theorem jsTrim_head_not_ws {l : List Char} {c : Char}
    (h : (jsTrim l).head? = some c) : isJsWS c = false := by
  unfold jsTrim at h
  rw [List.head?_reverse] at h
  rcases hy : (l.dropWhile isJsWS).reverse.dropWhile isJsWS with _ | ⟨e, t⟩
  · rw [hy] at h
    cases h
  · have hsplit := List.takeWhile_append_dropWhile isJsWS (l.dropWhile isJsWS).reverse
    rw [hy] at h hsplit
    have h2 : ((l.dropWhile isJsWS).reverse).getLast? = some c := by
      rw [← hsplit, getLast?_append_cons]
      exact h
    rw [List.getLast?_reverse] at h2
    rcases hm : l.dropWhile isJsWS with _ | ⟨d, t2⟩
    · rw [hm] at h2
      cases h2
    · rw [hm] at h2
      simp only [List.head?_cons, Option.some.injEq] at h2
      subst h2
      exact (dropWhile_destruct hm).1

theorem jsTrim_last_not_ws {l : List Char} {c : Char}
    (h : (jsTrim l).getLast? = some c) : isJsWS c = false := by
  unfold jsTrim at h
  rw [List.getLast?_reverse] at h
  rcases hy : (l.dropWhile isJsWS).reverse.dropWhile isJsWS with _ | ⟨e, t⟩
  · rw [hy] at h
    cases h
  · rw [hy] at h
    simp only [List.head?_cons, Option.some.injEq] at h
    subst h
    exact (dropWhile_destruct hy).1

/-! ### Fixpoint lemmas: the substitutions do nothing on already-clean text -/

theorem keepRun_no_lt {run : List Char} (h : ∀ x ∈ run, isLineTerm x = false) :
    keepRun false false run = run := by
  have hd : run.reverse.dropWhile (fun c => !(isLineTerm c)) = [] := by
    rw [List.dropWhile_eq_nil_iff]
    intro x hx
    simp [h x (List.mem_reverse.mp hx)]
  simp [keepRun, hd]

theorem keepRun_single_lt {a : Char} (ha : isLineTerm a = true) :
    keepRun false false [a] = [a] := by
  have hd : ([a] : List Char).dropWhile (fun c => !(isLineTerm c)) = [a] := by
    simp [List.dropWhile, ha]
  simp [keepRun, hd]

theorem run_shape :
    ∀ (run : List Char), (∀ x ∈ run, isJsWS x = true) → adjOK ltSep run = true →
      (∀ x ∈ run, isLineTerm x = false) ∨
      (∃ a, run = [a] ∧ isLineTerm a = true) := by
  intro run
  induction run with
  | nil => intro _ _; exact Or.inl (by intro x hx; cases hx)
  | cons a t ih =>
    intro hws hadj
    cases t with
    | nil =>
      by_cases ha : isLineTerm a = true
      · exact Or.inr ⟨a, rfl, ha⟩
      · refine Or.inl ?_
        intro x hx
        simp only [List.mem_singleton] at hx
        subst hx
        simpa using ha
    | cons b t2 =>
      have hp := adjOK_head hadj (b := b) rfl
      have hwa : isJsWS a = true := hws a (List.mem_cons_self a _)
      have hwb : isJsWS b = true := hws b (List.mem_cons_of_mem a (List.mem_cons_self b t2))
      have hla : isLineTerm a = false := by
        cases hl : isLineTerm a with
        | false => rfl
        | true => simp [ltSep, hl, hwb] at hp
      rcases ih (fun x hx => hws x (List.mem_cons_of_mem a hx)) (adjOK_tail hadj) with h | ⟨c, hc, hlc⟩
      · refine Or.inl ?_
        intro x hx
        rcases List.mem_cons.mp hx with h1 | h1
        · subst h1; exact hla
        · exact h x h1
      · exfalso
        injection hc with h1 h2
        rw [← h1] at hlc
        simp [ltSep, hlc, hwa] at hp

theorem perLineTrimAux_fix :
    ∀ (l run : List Char),
      (∀ x ∈ run, isJsWS x = true) →
      adjOK ltSep (run ++ l) = true →
      (∀ c, (run ++ l).getLast? = some c → isJsWS c = false) →
      perLineTrimAux false run l = run ++ l := by
  intro l
  induction l with
  | nil =>
    intro run hws _ hlast
    rcases hr : run with _ | ⟨a, t⟩
    · subst hr
      rw [perLineTrimAux, keepRun_end]
      rfl
    · exfalso
      subst hr
      have hne : (a :: t) ++ ([] : List Char) ≠ [] := by simp
      have hg := List.getLast?_eq_getLast ((a :: t) ++ []) hne
      have hx := hlast _ hg
      have hmem : ((a :: t) ++ ([] : List Char)).getLast hne ∈ a :: t := by
        simp
      rw [hws _ hmem] at hx
      cases hx
  | cons c rest ih =>
    intro run hws hadj hlast
    rw [perLineTrimAux]
    by_cases hc : isJsWS c = true
    · rw [if_pos hc]
      have hstep : perLineTrimAux false (run ++ [c]) rest = (run ++ [c]) ++ rest := by
        refine ih (run ++ [c]) ?_ ?_ ?_
        · intro x hx
          rcases List.mem_append.mp hx with h | h
          · exact hws x h
          · simp only [List.mem_singleton] at h
            subst h
            exact hc
        · rw [List.append_assoc, List.singleton_append]
          exact hadj
        · intro d hd
          refine hlast d ?_
          rwa [List.append_assoc, List.singleton_append] at hd
      rw [hstep, List.append_assoc, List.singleton_append]
    · rw [if_neg hc]
      rw [Bool.not_eq_true] at hc
      have hkeep : keepRun false false run = run := by
        rcases run_shape run hws (adjOK_of_append_left hadj) with h | ⟨a, hr, ha⟩
        · exact keepRun_no_lt h
        · rw [hr]
          exact keepRun_single_lt ha
      have hrec : perLineTrimAux false [] rest = rest := by
        refine ih [] ?_ ?_ ?_
        · intro x hx
          cases hx
        · have hcr : adjOK ltSep (c :: rest) = true := adjOK_of_append_right hadj
          simpa using adjOK_tail hcr
        · intro d hd
          simp only [List.nil_append] at hd
          rcases rest with _ | ⟨e, t⟩
          · cases hd
          · refine hlast d ?_
            rw [getLast?_append_cons run c (e :: t)]
            show (([c] : List Char) ++ (e :: t)).getLast? = some d
            rw [getLast?_append_cons [c] e t]
            exact hd
      rw [hkeep, hrec]

theorem perLineTrim_ltSep (l : List Char) : adjOK ltSep (perLineTrim l) = true :=
  perLineTrimAux_ltSep l true [] (by intro x hx; cases hx)

theorem perLineTrim_noHH {l : List Char} (h : adjOK noHH l = true) :
    adjOK noHH (perLineTrim l) = true :=
  perLineTrimAux_noHH l true [] (by simpa using h)

theorem perLineTrim_mem {l : List Char} {x : Char} (h : x ∈ perLineTrim l) : x ∈ l := by
  rcases perLineTrimAux_mem l true [] x h with h1 | h1
  · cases h1
  · exact h1

theorem perLineTrim_fix {l : List Char}
    (hadj : adjOK ltSep l = true)
    (hhead : ∀ c, l.head? = some c → isJsWS c = false)
    (hlast : ∀ c, l.getLast? = some c → isJsWS c = false) :
    perLineTrim l = l := by
  unfold perLineTrim
  cases l with
  | nil =>
    rw [perLineTrimAux, keepRun_end]
  | cons c rest =>
    have hc : isJsWS c = false := hhead c rfl
    rw [perLineTrimAux, if_neg (by simp [hc]), keepRun_start]
    have hrec : perLineTrimAux false [] rest = rest := by
      refine perLineTrimAux_fix rest [] ?_ ?_ ?_
      · intro x hx
        cases hx
      · simpa using adjOK_tail hadj
      · intro d hd
        simp only [List.nil_append] at hd
        rcases rest with _ | ⟨e, t⟩
        · cases hd
        · refine hlast d ?_
          show (([c] : List Char) ++ (e :: t)).getLast? = some d
          rw [getLast?_append_cons [c] e t]
          exact hd
    rw [hrec]
    rfl

theorem jsTrim_fix {l : List Char}
    (hhead : ∀ c, l.head? = some c → isJsWS c = false)
    (hlast : ∀ c, l.getLast? = some c → isJsWS c = false) :
    jsTrim l = l := by
  unfold jsTrim
  have h1 : l.dropWhile isJsWS = l := by
    cases l with
    | nil => rfl
    | cons a t => exact List.dropWhile_cons_of_neg (by simp [hhead a rfl])
  rw [h1]
  have h2 : l.reverse.dropWhile isJsWS = l.reverse := by
    rcases hr : l.reverse with _ | ⟨a, t⟩
    · rfl
    · have ha : l.getLast? = some a := by
        rw [← List.head?_reverse, hr]
        rfl
      exact List.dropWhile_cons_of_neg (by simp [hlast a ha])
  rw [h2, List.reverse_reverse]

theorem ltSep_to_noNN : ∀ (a b : Char), ltSep a b = true → noNN a b = true := by
  intro a b h
  cases han : a == '\n' with
  | false => simp [noNN, han]
  | true =>
    cases hbn : b == '\n' with
    | false => simp [noNN, hbn]
    | true =>
      rw [beq_iff_eq] at han hbn
      subst han
      subst hbn
      exact absurd h (by decide)

theorem string_data_nil_iff {t : String} : t.data = [] ↔ t = "" := by
  constructor
  · intro h
    apply String.ext
    rw [h]
  · intro h
    rw [h]

/-- Invariant bundle satisfied by every output of the Text Normalizer: the
result is non-empty, free of carriage returns, every line terminator is
isolated from other whitespace, no two horizontal whitespace characters are
adjacent, and neither end is whitespace. -/
theorem cleanText_invariants (s : String) :
    cleanText s ≠ "" ∧
    '\r' ∉ (cleanText s).data ∧
    adjOK ltSep (cleanText s).data = true ∧
    adjOK noHH (cleanText s).data = true ∧
    (∀ c, (cleanText s).data.head? = some c → isJsWS c = false) ∧
    (∀ c, (cleanText s).data.getLast? = some c → isJsWS c = false) := by
  unfold cleanText
  by_cases hs : s = ""
  · rw [if_pos hs]
    exact ⟨by decide, by decide, by decide, by decide, by decide, by decide⟩
  · rw [if_neg hs]
    by_cases hempty :
        jsTrim (perLineTrim (collapseHWS (collapseNL (crToLf (replaceCRLF s.data))))) = []
    · rw [if_pos hempty]
      exact ⟨by decide, by decide, by decide, by decide, by decide, by decide⟩
    · rw [if_neg hempty]
      refine ⟨?_, ?_, ?_, ?_, ?_, ?_⟩
      · intro he
        exact hempty (string_data_nil_iff.mpr he)
      · intro hr
        have h1 := perLineTrim_mem (mem_jsTrim hr)
        rcases mem_collapseHWS _ _ h1 with h2 | h2
        · cases h2
        · rcases mem_collapseNL _ _ h2 with h3 | h3
          · cases h3
          · exact cr_not_mem_crToLf _ h3
      · exact adjOK_jsTrim (perLineTrim_ltSep _)
      · exact adjOK_jsTrim (perLineTrim_noHH (collapseHWS_noHH _))
      · intro c hc
        exact jsTrim_head_not_ws hc
      · intro c hc
        exact jsTrim_last_not_ws hc

/-- On any string already satisfying the normalizer's output invariants, every
pass of `cleanText` is the identity. -/
theorem cleanText_fix {t : String}
    (hne : t ≠ "")
    (hcr : '\r' ∉ t.data)
    (hlt : adjOK ltSep t.data = true)
    (hhh : adjOK noHH t.data = true)
    (hhead : ∀ c, t.data.head? = some c → isJsWS c = false)
    (hlast : ∀ c, t.data.getLast? = some c → isJsWS c = false) :
    cleanText t = t := by
  unfold cleanText
  rw [if_neg hne]
  rw [replaceCRLF_fix hcr, crToLf_fix hcr,
    collapseNL_fix _ (adjOK_mono ltSep_to_noNN hlt),
    collapseHWS_fix _ hhh,
    perLineTrim_fix hlt hhead hlast,
    jsTrim_fix hhead hlast]
  rw [if_neg (fun e => hne (string_data_nil_iff.mp e))]

/-! ### Claim theorems about the Text Normalizer -/

/-- C1: for every input string, the Text Normalizer `cleanText` returns an
output that is never the empty string, contains no carriage-return
characters, contains no run of three or more consecutive line breaks, and
contains no run of two or more consecutive horizontal whitespace characters
(spaces/tabs). -/
theorem c1_cleanText_output_guarantees (s : String) :
    cleanText s ≠ "" ∧
    '\r' ∉ (cleanText s).data ∧
    noRun3 (fun c => c == '\n') (cleanText s).data = true ∧
    adjOK noHH (cleanText s).data = true := by
  obtain ⟨h1, h2, h3, h4, _, _⟩ := cleanText_invariants s
  refine ⟨h1, h2, ?_, h4⟩
  have hnn : adjOK noNN (cleanText s).data = true := adjOK_mono ltSep_to_noNN h3
  exact noRun3_of_adjOK hnn

/-- C2: the Text Normalizer is idempotent — for every string `x`,
`cleanText (cleanText x) = cleanText x`. -/
theorem c2_cleanText_idempotent (s : String) :
    cleanText (cleanText s) = cleanText s := by
  obtain ⟨h1, h2, h3, h4, h5, h6⟩ := cleanText_invariants s
  exact cleanText_fix h1 h2 h3 h4 h5 h6

/-! ### The /convert orchestrator: helper unfoldings -/

theorem multerSingle_nil : multerSingle [] = (none, none) := rfl

theorem multerSingle_single_ok {f : FileMeta} (hm : f.mimetype = "application/pdf")
    (hs : f.size ≤ maxFileSize) : multerSingle [f] = (none, some f) := by
  simp [multerSingle, hm, hs]

theorem multerSingle_single_mime {f : FileMeta} (hm : ¬f.mimetype = "application/pdf") :
    multerSingle [f] = (some ⟨none, "Only PDF files are allowed"⟩, none) := by
  simp [multerSingle, hm]

theorem multerSingle_single_size {f : FileMeta} (hm : f.mimetype = "application/pdf")
    (hs : ¬f.size ≤ maxFileSize) :
    multerSingle [f] = (some ⟨some "LIMIT_FILE_SIZE", "File too large"⟩, none) := by
  simp [multerSingle, hm, hs]

theorem multerSingle_many (f g : FileMeta) (t : List FileMeta) :
    multerSingle (f :: g :: t) =
      (some ⟨some "LIMIT_UNEXPECTED_FILE", "Unexpected field"⟩, none) := rfl

theorem convertHandler_upload_err {i : ConvertInput} {e : JsError} {x : Option FileMeta}
    (hsd : i.shuttingDown = false) (h : multerSingle i.files = (some e, x)) :
    convertHandler i = ⟨.clientError 400 (catchBody i.env e), false, none⟩ := by
  simp [convertHandler, hsd, h]

theorem convertHandler_no_file {i : ConvertInput}
    (hsd : i.shuttingDown = false) (h : multerSingle i.files = (none, none)) :
    convertHandler i =
      ⟨.clientError 400 (catchBody i.env ⟨none, "No file uploaded"⟩), false, none⟩ := by
  simp [convertHandler, hsd, h]

theorem convertHandler_write_ok {i : ConvertInput} {f : FileMeta}
    (hsd : i.shuttingDown = false) (h : multerSingle i.files = (none, some f))
    (hw : i.writeResult = .ok ()) :
    convertHandler i =
      ⟨.ok ⟨true, "PDF converted successfully",
          "/download/" ++ outputFileName i, f.originalname⟩, true,
        some (extractedTextOf i)⟩ := by
  simp [convertHandler, hsd, h, hw]

theorem convertHandler_write_err {i : ConvertInput} {f : FileMeta} {m : String}
    (hsd : i.shuttingDown = false) (h : multerSingle i.files = (none, some f))
    (hw : i.writeResult = .error m) :
    convertHandler i =
      ⟨.uncaught ("Failed to write document: " ++ m), true,
        some (extractedTextOf i)⟩ := by
  simp [convertHandler, hsd, h, hw]

/-! ### Claim theorems about the conversion orchestrator -/

/-- C3: for every upload that passes validation, if text extraction fails
(the pdf-parse call throws), the conversion does not return an error
response: the pipeline continues with the descriptive placeholder string as
the extracted text and the client still receives a response with
success:true and a download URL. -/
theorem c3_extraction_soft_failure (i : ConvertInput) (f : FileMeta) (m : String)
    (hsd : i.shuttingDown = false)
    (hup : multerSingle i.files = (none, some f))
    (hpe : i.parseResult = .error m)
    (hwr : i.writeResult = .ok ()) :
    (convertHandler i).resp =
      ConvertResp.ok ⟨true, "PDF converted successfully",
        "/download/" ++ outputFileName i, f.originalname⟩ ∧
    (convertHandler i).docText =
      some ("Error extracting text from PDF: " ++ m ++
        "\n\nThis may be an image-based PDF or the file may be corrupted.") ∧
    ∀ (st : Nat) (b : ErrorBody), (convertHandler i).resp ≠ ConvertResp.clientError st b := by
  rw [convertHandler_write_ok hsd hup hwr]
  refine ⟨rfl, ?_, ?_⟩
  · show some (extractedTextOf i) = _
    rw [extractedTextOf, hpe]
  · intro st b h
    cases h

theorem c3_witness :
    (convertHandler ⟨false, [⟨"a.pdf", "application/pdf", 2048⟩],
        Except.error "bad xref", Except.ok (), "production", 42⟩).docText =
      some ("Error extracting text from PDF: " ++ "bad xref" ++
        "\n\nThis may be an image-based PDF or the file may be corrupted.") ∧
    (convertHandler ⟨false, [⟨"a.pdf", "application/pdf", 2048⟩],
        Except.error "bad xref", Except.ok (), "production", 42⟩).resp =
      ConvertResp.ok ⟨true, "PDF converted successfully",
        "/download/" ++ outputFileName ⟨false, [⟨"a.pdf", "application/pdf", 2048⟩],
          Except.error "bad xref", Except.ok (), "production", 42⟩, "a.pdf"⟩ := by
  have h := c3_extraction_soft_failure
    ⟨false, [⟨"a.pdf", "application/pdf", 2048⟩],
      Except.error "bad xref", Except.ok (), "production", 42⟩
    ⟨"a.pdf", "application/pdf", 2048⟩ "bad xref"
    rfl (by decide) rfl rfl
  exact ⟨h.2.1, h.1⟩

/-- C4: the Upload Gatekeeper rejects a submission with an HTTP 400
validation error exactly when no file is present, the declared MIME type is
not application/pdf, the file size exceeds 10 MB, or more than one file is
sent; a single application/pdf file of at most 10 MB is admitted to the
pipeline. -/
theorem c4_gatekeeper (i : ConvertInput) (hsd : i.shuttingDown = false) :
    ((∃ b, (convertHandler i).resp = ConvertResp.clientError 400 b) ↔
      (i.files = [] ∨ 1 < i.files.length ∨
        ∃ f, i.files = [f] ∧
          (f.mimetype ≠ "application/pdf" ∨ maxFileSize < f.size))) ∧
    (∀ f : FileMeta, f.mimetype = "application/pdf" → f.size ≤ maxFileSize →
      multerSingle [f] = (none, some f)) := by
  constructor
  · rcases hfs : i.files with _ | ⟨f, _ | ⟨g, t⟩⟩
    · constructor
      · intro _
        exact Or.inl rfl
      · intro _
        exact ⟨catchBody i.env ⟨none, "No file uploaded"⟩,
          by rw [convertHandler_no_file hsd (by rw [hfs]; rfl)]⟩
    · by_cases hm : f.mimetype = "application/pdf"
      · by_cases hs : f.size ≤ maxFileSize
        · constructor
          · intro ⟨b, hb⟩
            exfalso
            have hok : multerSingle i.files = (none, some f) := by
              rw [hfs]
              exact multerSingle_single_ok hm hs
            rcases hw : i.writeResult with m | u
            · rw [convertHandler_write_err hsd hok hw] at hb
              cases hb
            · rw [convertHandler_write_ok hsd hok hw] at hb
              cases hb
          · intro h
            exfalso
            rcases h with h | h | ⟨f2, hf2, hbad⟩
            · cases h
            · simp at h
            · injection hf2 with h1 _
              subst h1
              rcases hbad with hbad | hbad
              · exact hbad hm
              · omega
        · constructor
          · intro _
            exact Or.inr (Or.inr ⟨f, rfl, Or.inr (by omega)⟩)
          · intro _
            exact ⟨catchBody i.env ⟨some "LIMIT_FILE_SIZE", "File too large"⟩,
              by rw [convertHandler_upload_err hsd
                (by rw [hfs]; exact multerSingle_single_size hm hs)]⟩
      · constructor
        · intro _
          exact Or.inr (Or.inr ⟨f, rfl, Or.inl hm⟩)
        · intro _
          exact ⟨catchBody i.env ⟨none, "Only PDF files are allowed"⟩,
            by rw [convertHandler_upload_err hsd
              (by rw [hfs]; exact multerSingle_single_mime hm)]⟩
    · constructor
      · intro _
        refine Or.inr (Or.inl ?_)
        simp
      · intro _
        exact ⟨catchBody i.env ⟨some "LIMIT_UNEXPECTED_FILE", "Unexpected field"⟩,
          by rw [convertHandler_upload_err hsd
            (by rw [hfs]; exact multerSingle_many f g t)]⟩
  · intro f hm hs
    exact multerSingle_single_ok hm hs

theorem c4_witness :
    (∃ b, (convertHandler ⟨false, [], Except.error "x", Except.ok (), "production",
        0⟩).resp = ConvertResp.clientError 400 b) ∧
    multerSingle [⟨"a.pdf", "application/pdf", 2048⟩] =
      (none, some ⟨"a.pdf", "application/pdf", 2048⟩) := by
  refine ⟨(c4_gatekeeper ⟨false, [], Except.error "x", Except.ok (), "production",
    0⟩ rfl).1.mpr (Or.inl rfl), ?_⟩
  exact (c4_gatekeeper ⟨false, [], Except.error "x", Except.ok (), "production",
    0⟩ rfl).2 ⟨"a.pdf", "application/pdf", 2048⟩ rfl (by decide)

/-- C5 (documents the code bug): on a valid upload whose output write stream
fails, part_002 produces no DocumentWriteError HTTP 500 — the handler throws
"Failed to write document: ..." from inside the stream 'error' callback,
which runs after the request's try/catch has exited, so the exception
escapes the request handler entirely (process-level uncaughtException); in
particular the response is neither a 500 nor any client error response. -/
theorem c5_write_failure_not_surfaced :
    (convertHandler ⟨false, [⟨"a.pdf", "application/pdf", 2048⟩],
        Except.error "bad xref", Except.error "ENOSPC", "production", 42⟩).resp =
      ConvertResp.uncaught "Failed to write document: ENOSPC" ∧
    ∀ (st : Nat) (b : ErrorBody),
      (convertHandler ⟨false, [⟨"a.pdf", "application/pdf", 2048⟩],
          Except.error "bad xref", Except.error "ENOSPC", "production", 42⟩).resp ≠
        ConvertResp.clientError st b := by
  have hres : (convertHandler ⟨false, [⟨"a.pdf", "application/pdf", 2048⟩],
      Except.error "bad xref", Except.error "ENOSPC", "production", 42⟩).resp =
      ConvertResp.uncaught "Failed to write document: ENOSPC" := by decide
  refine ⟨hres, ?_⟩
  intro st b h
  rw [hres] at h
  cases h

/-- C6: whenever a conversion request actually created a temporary uploaded
file (multer produced `req.file`), every terminal state of the orchestrator
— success, extraction failure, write failure — has scheduled deletion of
that temp file, and no temp file exists on the validation-failure exits. -/
theorem c6_cleanup_always_scheduled (i : ConvertInput) (hsd : i.shuttingDown = false) :
    (convertHandler i).cleanupScheduled = true ↔
      ((multerSingle i.files).2).isSome = true := by
  rcases hfs : i.files with _ | ⟨f, _ | ⟨g, t⟩⟩
  · rw [convertHandler_no_file hsd (by rw [hfs]; rfl)]
    simp [multerSingle_nil]
  · by_cases hm : f.mimetype = "application/pdf"
    · by_cases hs : f.size ≤ maxFileSize
      · have hok : multerSingle i.files = (none, some f) := by
          rw [hfs]
          exact multerSingle_single_ok hm hs
        rcases hw : i.writeResult with m | u
        · rw [convertHandler_write_err hsd hok hw]
          simp [multerSingle_single_ok hm hs]
        · rw [convertHandler_write_ok hsd hok hw]
          simp [multerSingle_single_ok hm hs]
      · rw [convertHandler_upload_err hsd
          (by rw [hfs]; exact multerSingle_single_size hm hs)]
        simp [multerSingle_single_size hm hs]
    · rw [convertHandler_upload_err hsd
        (by rw [hfs]; exact multerSingle_single_mime hm)]
      simp [multerSingle_single_mime hm]
  · rw [convertHandler_upload_err hsd (by rw [hfs]; exact multerSingle_many f g t)]
    simp [multerSingle_many]

theorem c6_witness :
    (convertHandler ⟨false, [⟨"a.pdf", "application/pdf", 2048⟩],
        Except.error "bad xref", Except.error "ENOSPC", "production", 7⟩).cleanupScheduled
        = true ↔
      ((multerSingle [⟨"a.pdf", "application/pdf", 2048⟩]).2).isSome = true :=
  c6_cleanup_always_scheduled
    ⟨false, [⟨"a.pdf", "application/pdf", 2048⟩],
      Except.error "bad xref", Except.error "ENOSPC", "production", 7⟩ rfl

/-- C7: every `GET /download/:filename` whose filename does not match
`converted-<digits>.docx` — including traversal strings like
`../../etc/passwd` — is rejected with the 400 JSON error and never reaches
the file-streaming branch, and a matching filename whose file is absent or
expired yields 404. -/
theorem c7_download_filename_guard :
    (∀ (fn : String) (ex : Bool) (now : Nat),
      filenameOk fn = false → downloadHandler false fn ex now = DownloadResp.invalidName) ∧
    (∀ (sh ex : Bool) (fn p cn : String) (now : Nat),
      filenameOk fn = false →
        downloadHandler sh fn ex now ≠ DownloadResp.streamFile p cn) ∧
    (∀ (fn : String) (now : Nat),
      filenameOk fn = true → downloadHandler false fn false now = DownloadResp.notFound) ∧
    filenameOk "../../etc/passwd" = false := by
  refine ⟨?_, ?_, ?_, by decide⟩
  · intro fn ex now h
    simp [downloadHandler, h]
  · intro sh ex fn p cn now h hcon
    rcases sh with _ | _
    · simp [downloadHandler, h] at hcon
    · simp [downloadHandler] at hcon
  · intro fn now h
    simp [downloadHandler, h]

theorem c7_witness :
    downloadHandler false "../../etc/passwd" true 7 = DownloadResp.invalidName ∧
    downloadHandler false "converted-5.docx" false 7 = DownloadResp.notFound :=
  ⟨c7_download_filename_guard.1 "../../etc/passwd" true 7 (by decide),
    c7_download_filename_guard.2.2.1 "converted-5.docx" 7 (by decide)⟩

/-- C8 counterexample: outside development mode, two conversion failures
that differ only in the internal error message can produce different error
bodies, because the catch block derives the user-facing `error` field from
substring tests on `error.message`. -/
theorem c8_counterexample :
    catchBody "production" ⟨none, "Only PDF files are allowed"⟩ ≠
      catchBody "production" ⟨none, "boom"⟩ := by
  decide

/-- C8 amended: the `details` field (raw internal message) is included only
when NODE_ENV = 'development'; outside development mode the error body
depends on the internal error only through its dispatch category (size-limit
code, filter message, no-file message, other), so two runs whose internal
errors are in the same category produce identical bodies; the Express error
middleware's bodies never depend on the message at all. -/
theorem c8_details_only_in_development :
    (∀ (env : String) (e : JsError),
      (catchBody env e).details.isSome = true → env = "development") ∧
    (∀ (env : String) (e1 e2 : JsError), env ≠ "development" →
      errCategory e1 = errCategory e2 → catchBody env e1 = catchBody env e2) ∧
    (∀ (e1 e2 : JsError) (hs : Bool), e1.code = e2.code →
      errorMiddleware e1 hs = errorMiddleware e2 hs) := by
  refine ⟨?_, ?_, ?_⟩
  · intro env e h
    by_cases hd : env = "development"
    · exact hd
    · exfalso
      unfold catchBody at h
      rw [if_neg hd] at h
      cases h
  · intro env e1 e2 hdev hcat
    have hmsg : catchMessage e1 = catchMessage e2 := by
      unfold errCategory at hcat
      unfold catchMessage
      split_ifs at hcat ⊢ <;> first | rfl | omega
    unfold catchBody
    rw [if_neg hdev, if_neg hdev, hmsg]
  · intro e1 e2 hs hcode
    unfold errorMiddleware
    rw [hcode]

theorem c8_witness :
    catchBody "production" ⟨none, "boom"⟩ = catchBody "production" ⟨none, "crash"⟩ :=
  c8_details_only_in_development.2.1 "production" ⟨none, "boom"⟩ ⟨none, "crash"⟩
    (by decide) (by decide)

/-- C9: `GET /health` answers 200 in every server state, including while the
shutdown flag is set, whereas `GET /`, `POST /convert` and
`GET /download/:filename` all answer 503 once the shutdown flag is set. -/
theorem c9_shutdown_gates :
    (∀ (sh : Bool) (ts : String) (up : Nat), (healthHandler sh ts up).1 = 200) ∧
    rootHandler true = RootResp.unavailable ∧
    (∀ i : ConvertInput, i.shuttingDown = true →
      (convertHandler i).resp = ConvertResp.unavailable) ∧
    (∀ (fn : String) (ex : Bool) (now : Nat),
      downloadHandler true fn ex now = DownloadResp.unavailable) := by
  refine ⟨fun sh ts up => rfl, rfl, ?_, fun fn ex now => rfl⟩
  intro i h
  simp [convertHandler, h]

theorem c9_witness :
    (convertHandler ⟨true, [], Except.error "x", Except.ok (), "production", 0⟩).resp =
      ConvertResp.unavailable ∧
    (healthHandler true "t" 3).1 = 200 :=
  ⟨c9_shutdown_gates.2.2.1
      ⟨true, [], Except.error "x", Except.ok (), "production", 0⟩ rfl,
    c9_shutdown_gates.1 true "t" 3⟩

/-- C10: deletion of a generated output file is scheduled (120000 ms) exactly
when the download callback reports no error; on error no deletion timer is
set, so the file stays for a retry; and `safeFileCleanup` never throws —
missing files are skipped and unlink failures are caught and logged. -/
theorem c10_download_retention (err : Option String) (hs pn fe : Bool)
    (ur : JsResult Unit) :
    ((downloadCallback err hs).scheduledDeleteMs = some 120000 ↔ err = none) ∧
    (err ≠ none → (downloadCallback err hs).scheduledDeleteMs = none) ∧
    (safeFileCleanup pn fe ur).isThrown = false := by
  refine ⟨?_, ?_, ?_⟩
  · rcases err with _ | e
    · simp [downloadCallback]
    · simp [downloadCallback]
  · rcases err with _ | e
    · intro h
      exact absurd rfl h
    · intro _
      simp [downloadCallback]
  · rcases ur with u | e <;> by_cases hpf : (pn && fe) = true <;>
      simp [safeFileCleanup, hpf, JsResult.isThrown]

theorem c10_witness :
    (downloadCallback (some "EPIPE") true).scheduledDeleteMs = none ∧
    (safeFileCleanup true true (JsResult.thrown "ENOENT")).isThrown = false :=
  ⟨(c10_download_retention (some "EPIPE") true true true (JsResult.thrown "ENOENT")).2.1
      (by simp),
    (c10_download_retention (some "EPIPE") true true true (JsResult.thrown "ENOENT")).2.2⟩
